import Mathlib

/-!
Shallow embedding of the release serializers
(src/sentry/api/serializers/models/release.py and
src/sentry/api/serializers/models/repository_project_path_config.py).

Modelling conventions:
* Python dicts are association lists (`List (κ × β)`) with the Python
  update discipline: setting an existing key keeps its position, a new key
  is appended.  `dlookup` is `dict.get`, `dvalues` is `dict.values()`.
* External collaborators (the ORM, the cache service, tagstore, the
  health-data backend, the generic serializer registry, hashlib md5) are
  consumed via call/response; each response is a field of an environment
  record, and pure collaborator functions (md5 hex digest, status
  rendering, provider serialization) are function parameters.
* Timestamps are naturals.  Python datetime objects are always truthy, so
  a truthiness test on a value fetched from a timestamp dict is modelled
  as an `Option.isSome` test.
* Numeric health payload values are opaque to this development and are
  modelled as integers; nothing is proved about their arithmetic.
* Database ids are naturals; nullable columns and nullable foreign keys
  are `Option`.  Django primary keys are positive, so the Python
  truthiness test on an id attribute is modelled as `Option.isSome`.
-/

/-- Python dict lookup (`d.get(k)`): first binding of the key wins; the
update discipline below keeps at most one binding per key. -/
def dlookup {κ β : Type} [DecidableEq κ] : List (κ × β) → κ → Option β
  | [], _ => none
  | (k₁, v₁) :: rest, k => if k₁ = k then some v₁ else dlookup rest k

/-- Python dict update (`d[k] = v`): replace in place if the key exists,
otherwise append, preserving insertion order. -/
def dset {κ β : Type} [DecidableEq κ] : List (κ × β) → κ → β → List (κ × β)
  | [], k, v => [(k, v)]
  | (k₁, v₁) :: rest, k, v =>
      if k₁ = k then (k, v) :: rest else (k₁, v₁) :: dset rest k v

/-- Python `d.values()` in insertion order. -/
def dvalues {κ β : Type} (d : List (κ × β)) : List β := d.map (fun p => p.2)

/-- `d.setdefault(k, {})[k2] = v` on a dict of dicts. -/
def dsetdefault {κ κ₂ β : Type} [DecidableEq κ] [DecidableEq κ₂]
    (d : List (κ × List (κ₂ × β))) (k : κ) (k₂ : κ₂) (v : β) :
    List (κ × List (κ₂ × β)) :=
  dset d k (dset ((dlookup d k).getD []) k₂ v)

/-- A dict write loop over a list starting from an existing dict: each
element is keyed by `key` and mapped through `val`. -/
def dsetFoldFrom {α κ β : Type} [DecidableEq κ] (key : α → κ) (val : α → β)
    (init : List (κ × β)) (l : List α) : List (κ × β) :=
  l.foldl (fun acc a => dset acc (key a) (val a)) init

/-- Build a dict from a list, keying each element by `key` and mapping it
through `val` (a Python dict comprehension / write loop). -/
def dsetFold {α κ β : Type} [DecidableEq κ] (key : α → κ) (val : α → β)
    (l : List α) : List (κ × β) :=
  dsetFoldFrom key val [] l

/-- The value the write loop `dsetFoldFrom key val` leaves at key `k`:
the image of the last element keyed `k`, else the start value `c`. -/
def lastWriteFrom {α κ β : Type} [DecidableEq κ] (key : α → κ) (val : α → β)
    (c : Option β) (l : List α) (k : κ) : Option β :=
  l.foldl (fun cur a => if key a = k then some (val a) else cur) c

/-- A dict write loop that skips elements without a value (the cache-hit
loop of `get_users_for_authors`, projected to its dict). -/
def dsetFoldOptFrom {α κ β : Type} [DecidableEq κ] (key : α → κ)
    (val : α → Option β) (init : List (κ × β)) (l : List α) : List (κ × β) :=
  l.foldl (fun acc a =>
    match val a with
    | none => acc
    | some w => dset acc (key a) w) init

/-- The value `dsetFoldOptFrom key val` leaves at key `k`. -/
def lastWriteOptFrom {α κ β : Type} [DecidableEq κ] (key : α → κ)
    (val : α → Option β) (c : Option β) (l : List α) (k : κ) : Option β :=
  l.foldl (fun cur a =>
    match val a with
    | none => cur
    | some w => if key a = k then some w else cur) c

/-- Insert into an ascending list; helper for Python `sorted`. -/
def insertSorted (x : Nat) : List Nat → List Nat
  | [] => [x]
  | y :: ys => if x ≤ y then x :: y :: ys else y :: insertSorted x ys

/-- Python `sorted` on a list of naturals. -/
def pySorted (l : List Nat) : List Nat := l.foldr insertSorted []

/-- Python `sum` over dict values whose column is nullable; rows reaching
the sums in this code come from queries that exclude NULL (an isnull
filter or an aggregate of a non-null column), so a `none` contributes
nothing here. -/
def pySumOpt (l : List (Option Nat)) : Nat :=
  l.foldl (fun acc v => acc + v.getD 0) 0

/-- A tag value returned by `tagstore.get_release_tags`. -/
structure TagValue where
  value : String
  first_seen : Nat
  last_seen : Nat
deriving DecidableEq, Repr

/-- A `ReleaseProjectEnvironment` row with its selected release, as used
by the first-seen/last-seen loop. -/
structure RPERow where
  release_version : String
  first_seen : Nat
  last_seen : Nat
deriving DecidableEq, Repr

/-- Combine an optional accumulated value with candidates by minimum. -/
def optMin : Option Nat → Option Nat → Option Nat
  | none, b => b
  | a, none => a
  | some x, some y => some (min x y)

/-- Combine an optional accumulated value with candidates by maximum. -/
def optMax : Option Nat → Option Nat → Option Nat
  | none, b => b
  | a, none => a
  | some x, some y => some (max x y)

/-- Minimum of a list of naturals, `none` on the empty list. -/
def minOfList : List Nat → Option Nat
  | [] => none
  | x :: xs => some (match minOfList xs with
      | none => x
      | some m => min x m)

/-- Maximum of a list of naturals, `none` on the empty list. -/
def maxOfList : List Nat → Option Nat
  | [] => none
  | x :: xs => some (match maxOfList xs with
      | none => x
      | some m => max x m)

/-- Loop body of `__get_release_data_no_environment` for `first_seen`:
`first_seen[tv.value] = min(tv.first_seen, first_val) if first_val else
tv.first_seen` (datetimes are always truthy, so the test is presence). -/
def stepFirstNoEnv (fs : String → Option Nat) (tv : TagValue) :
    String → Option Nat :=
  fun v => if v = tv.value then
      some (match fs tv.value with
        | some first_val => min tv.first_seen first_val
        | none => tv.first_seen)
    else fs v

/-- Loop body of `__get_release_data_no_environment` for `last_seen`. -/
def stepLastNoEnv (ls : String → Option Nat) (tv : TagValue) :
    String → Option Nat :=
  fun v => if v = tv.value then
      some (match ls tv.value with
        | some last_val => max tv.last_seen last_val
        | none => tv.last_seen)
    else ls v

/-- Loop body of `__get_release_data_no_environment`: one tag value
updates both dicts. -/
def stepNoEnv (p : (String → Option Nat) × (String → Option Nat))
    (tv : TagValue) : (String → Option Nat) × (String → Option Nat) :=
  (stepFirstNoEnv p.1 tv, stepLastNoEnv p.2 tv)

/-- Loop body of `__get_release_data_with_environments` for `first_seen`:
write when the version is absent or the stored value is strictly
larger. -/
def stepFirstWithEnv (fs : String → Option Nat) (row : RPERow) :
    String → Option Nat :=
  match fs row.release_version with
  | none => fun v => if v = row.release_version then some row.first_seen else fs v
  | some f =>
      if f > row.first_seen then
        fun v => if v = row.release_version then some row.first_seen else fs v
      else fs

/-- Loop body of `__get_release_data_with_environments` for `last_seen`:
write when the version is absent or the stored value is strictly
smaller. -/
def stepLastWithEnv (ls : String → Option Nat) (row : RPERow) :
    String → Option Nat :=
  match ls row.release_version with
  | none => fun v => if v = row.release_version then some row.last_seen else ls v
  | some l =>
      if l < row.last_seen then
        fun v => if v = row.release_version then some row.last_seen else ls v
      else ls

/-- Loop body of `__get_release_data_with_environments`: one row updates
both dicts. -/
def stepWithEnv (p : (String → Option Nat) × (String → Option Nat))
    (row : RPERow) : (String → Option Nat) × (String → Option Nat) :=
  (stepFirstWithEnv p.1 row, stepLastWithEnv p.2 row)

/-- A `CommitAuthor` row. -/
structure Author where
  id : Nat
  name : String
  email : String
deriving DecidableEq, Repr

/-- The response of the generic serializer registry for a `User`; only
the keys this module reads are modelled. -/
structure SerUser where
  id : String
  name : String
  email : String
deriving DecidableEq, Repr

/-- A value of the author-to-user dict: either a serialized user or the
`{name, email}` fallback dict built for an unmatched author. -/
inductive UserVal where
  | user (u : SerUser)
  | fallback (name : String) (email : String)
deriving DecidableEq, Repr

/-- The `email` key, present on both forms of `UserVal`. -/
def UserVal.email : UserVal → String
  | .user u => u.email
  | .fallback _ e => e

/-- A `UserEmail` row as consumed by `get_users_for_authors`. -/
structure UserEmailRow where
  user_id : Nat
  email : String
deriving DecidableEq, Repr

/-- The external lookups `get_users_for_authors` can issue. -/
inductive ExtCall where
  | cacheGetMany
  | userEmailQuery
  | userQuery
  | cacheSetMany
deriving DecidableEq, BEq, Repr

/-- Call/response environment for `get_users_for_authors`: the md5 hex
digest function, the per-key cache response of `cache.get_many`, the
`UserEmail` query response (ordered by id), and the serialized response
of the active-organization-member `User` query. -/
structure GUFAEnv where
  md5hex : String → String
  cached : String → Option UserVal
  user_emails : List UserEmailRow
  users : List SerUser

/-- `_user_to_author_cache_key`. -/
def _user_to_author_cache_key (md5hex : String → String)
    (organization_id : Nat) (author : Author) : String :=
  let author_hash := md5hex author.email.toLower
  "get_users_for_authors:" ++ toString organization_id ++ ":" ++ author_hash

/-- The cache response for one author key (an entry of `fetched`). -/
def gufaCacheHit (env : GUFAEnv) (organization_id : Nat) (a : Author) :
    Option UserVal :=
  env.cached (_user_to_author_cache_key env.md5hex organization_id a)

/-- One author of the cache-hit walk of `get_users_for_authors`: a hit is
written into `results`, a miss is appended to `missed`. -/
def gufaPhase1Step (env : GUFAEnv) (organization_id : Nat)
    (acc : List (String × UserVal) × List Author) (a : Author) :
    List (String × UserVal) × List Author :=
  match gufaCacheHit env organization_id a with
  | none => (acc.1, acc.2 ++ [a])
  | some u => (dset acc.1 (toString a.id) u, acc.2)

/-- First phase of `get_users_for_authors`: when `fetched` is non-empty,
walk the authors, writing cache hits into `results` and collecting the
misses; when `fetched` is empty, everything is missed. -/
def gufaPhase1 (env : GUFAEnv) (organization_id : Nat)
    (authors : List Author) : List (String × UserVal) × List Author :=
  if authors.any (fun a => (gufaCacheHit env organization_id a).isSome) then
    authors.foldl (gufaPhase1Step env organization_id) ([], [])
  else ([], authors)

/-- `users_by_id = {user["id"]: user for user in users}`. -/
def users_by_id (env : GUFAEnv) : List (String × SerUser) :=
  dsetFold (fun u => u.id) (fun u => u) env.users

/-- The `users_by_email` dict: for each `UserEmail` row in order, if the
lowercased email is not yet present and the row resolves to a serialized
organization user, bind it. -/
def users_by_email (env : GUFAEnv) : List (String × SerUser) :=
  env.user_emails.foldl (fun d e =>
    let lower_email := e.email.toLower
    if (dlookup d lower_email).isSome then d
    else
      match dlookup (users_by_id env) (toString e.user_id) with
      | some u => dset d lower_email u
      | none => d) []

/-- The value written for a missed author: the case-insensitively matched
serialized user, or the `{name, email}` fallback dict. -/
def gufaMissValue (env : GUFAEnv) (a : Author) : UserVal :=
  match dlookup (users_by_email env) a.email.toLower with
  | some u => UserVal.user u
  | none => UserVal.fallback a.name a.email

/-- `get_users_for_authors`, instrumented with the list of external
lookups it issues (bulk cache read, `UserEmail` query, `User` query,
bulk cache write).  The `user` argument is only forwarded to the external
serializer, whose response is `env.users`. -/
def get_users_for_authors_traced (env : GUFAEnv) (organization_id : Nat)
    (authors : List Author) (user : Nat) :
    List (String × UserVal) × List ExtCall :=
  let p1 := gufaPhase1 env organization_id authors
  let missed := p1.2
  if missed.isEmpty then (p1.1, [ExtCall.cacheGetMany])
  else
    (dsetFoldFrom (fun a => toString a.id) (gufaMissValue env) p1.1 missed,
     [ExtCall.cacheGetMany, ExtCall.userEmailQuery, ExtCall.userQuery,
      ExtCall.cacheSetMany])

/-- `get_users_for_authors`: the author-id-to-user dict it returns. -/
def get_users_for_authors (env : GUFAEnv) (organization_id : Nat)
    (authors : List Author) (user : Nat) : List (String × UserVal) :=
  (get_users_for_authors_traced env organization_id authors user).1

/-- The parsed part of a release version_info payload.  The field names
map one-to-one to the dict keys the code copies. -/
structure VersionParsed where
  major : Nat
  minor : Nat
  patch : Nat
  pre : Option String
  build_code : Option String
  components : Nat
deriving DecidableEq, Repr

/-- The `version_info` payload of a release. -/
structure VersionInfo where
  version_raw : String
  version_parsed : Option VersionParsed
  package : Option String
  description : String
  build_hash : Option String
deriving DecidableEq, Repr

/-- A `Release` ORM row, restricted to the attributes this module
reads.  `authors` holds commit-author ids rendered as strings, as stored
on the release row. -/
structure Release where
  id : Nat
  version : String
  organization_id : Nat
  owner_id : Option Nat
  authors : List String
  last_commit_id : Option Nat
  last_deploy_id : Option Nat
  _for_project_id : Option Nat
  status : Nat
  version_info : Option VersionInfo
  ref : Option String
  url : Option String
  date_released : Option Nat
  date_added : Nat
  data : String
  commit_count : Nat
  total_deploys : Nat
deriving DecidableEq, Repr

/-- A `Project` row (the `project` keyword argument / path-config
project). -/
structure Project where
  id : Nat
  slug : String
deriving DecidableEq, Repr

/-- The serializer-registry response for a release owner; only the `id`
key is read here, the rest is opaque. -/
structure SerOwner where
  id : String
  payload : String
deriving DecidableEq, Repr

/-- Opaque serialized commit payload. -/
abbrev SerCommit := String

/-- Opaque serialized deploy payload. -/
abbrev SerDeploy := String

/-- The per-release entry `_get_commit_metadata` produces. -/
structure CommitMeta where
  authors : List UserVal
  last_commit : Option SerCommit
deriving DecidableEq, Repr

/-- Call/response environment for `_get_commit_metadata`: the
`CommitAuthor` query response, the collaborators of
`get_users_for_authors`, and the zipped `Commit` query / serializer
response keyed by commit id. -/
structure CommitMetaEnv where
  commit_authors : List Author
  gufa : GUFAEnv
  commits : List (Nat × SerCommit)

/-- A health-data overview entry; the numeric payload is opaque. -/
structure HealthData where
  duration_p50 : Option Int
  duration_p90 : Option Int
  crash_free_users : Option Int
  crash_free_sessions : Option Int
  sessions_crashed : Int
  sessions_errored : Int
  total_users : Int
  total_users_24h : Int
  total_sessions : Int
  total_sessions_24h : Int
  adoption : Option Int
  stats : Option String
  has_health_data : Bool
deriving DecidableEq, Repr

/-- A row of the `ReleaseProject` values query feeding the per-project
entries of `get_attrs`. -/
structure PRRow where
  new_groups : Option Nat
  release_id : Nat
  release_version : String
  project_slug : String
  project_name : String
  project_id : Nat
  project_platform : Option String
deriving DecidableEq, Repr

/-- The `pr_rv` per-project dict built by `get_attrs`.  `health_data` is
`none` when the key is absent (the non-health branch). -/
structure ProjectRV where
  id : Nat
  slug : String
  name : String
  new_groups : Option Nat
  platform : Option String
  platforms : List String
  health_data : Option (Option HealthData)
  has_health_data : Bool
deriving DecidableEq, Repr

/-- The per-release attrs dict `get_attrs` produces. -/
structure ReleaseAttrs where
  owner : Option SerOwner
  new_groups : Nat
  projects : List ProjectRV
  first_seen : Option Nat
  last_seen : Option Nat
  authors : List UserVal
  last_commit : Option SerCommit
  last_deploy : Option SerDeploy
deriving DecidableEq, Repr

/-- Call/response environment for `get_attrs` and its helpers.  Each
field is the response of one external call site; query parameters the
code passes (project ids, versions, environments, stats periods) are
absorbed into the corresponding response. -/
structure AttrsEnv where
  releaseTags : List TagValue
  rpProjectIds : List Nat
  rpProjRows : List (Nat × Option Nat)
  rpAllRows : List (Nat × Nat × Nat)
  rpeRows : List RPERow
  rpeAggRows : List (Nat × Nat × Option Nat)
  ownersSer : List SerOwner
  commitMeta : CommitMetaEnv
  deploys : List (Nat × SerDeploy)
  projectReleases : List PRRow
  platforms : List (Nat × String)
  healthData : List ((Nat × String) × HealthData)
  hasHealthData : List (Nat × String)

/-- The keyword arguments of `get_attrs` that steer its control flow.
`environment` stands for the name of the environment object when one is
passed; the health stat/period arguments are only forwarded to the
health-data backend and are absorbed into the env response. -/
structure AttrsKwargs where
  project : Option Project
  environment : Option String
  environments : Option (List String)
  with_health_data : Bool
  no_snuba : Bool
deriving DecidableEq, Repr

namespace ReleaseSerializer

/-- The `users_by_author` dict of `_get_commit_metadata`: empty when
there are no authors or the items span more than one organization,
otherwise the `get_users_for_authors` result for the single
organization. -/
def users_by_author_for (env : CommitMetaEnv) (item_list : List Release)
    (user : Nat) (authors : List Author) : List (String × UserVal) :=
  if authors.isEmpty then []
  else
    match (item_list.map (fun i => i.organization_id)).dedup with
    | [oid] => get_users_for_authors env.gufa oid authors user
    | _ => []

/-- The per-item author walk of `_get_commit_metadata`: resolve each
author id through `users_by_author`, dropping misses and deduplicating
resolved users by email (first pair component: seen emails, second: the
item authors in order). -/
def item_authors_fold (users_by_author : List (String × UserVal))
    (authors : List String) : List String × List UserVal :=
  authors.foldl (fun acc a =>
    match dlookup users_by_author a with
    | some u =>
        if u.email ∈ acc.1 then acc
        else (acc.1 ++ [u.email], acc.2 ++ [u])
    | none => acc) ([], [])

/-- `_get_commit_metadata`.  The `user` argument is only forwarded to
external serializer calls, whose responses live in `env`. -/
def _get_commit_metadata (env : CommitMetaEnv) (item_list : List Release)
    (user : Nat) : List (Release × CommitMeta) :=
  let author_ids := ((item_list.map (fun o => o.authors)).flatten).dedup
  let authors := if author_ids.isEmpty then [] else env.commit_authors
  let users_by_author := users_by_author_for env item_list user authors
  let commit_ids := (item_list.filterMap (fun o => o.last_commit_id)).dedup
  let commits := if commit_ids.isEmpty then [] else env.commits
  dsetFold (fun item => item)
    (fun item =>
      { authors := (item_authors_fold users_by_author item.authors).2,
        last_commit := item.last_commit_id.bind
          (fun cid => dlookup commits cid) })
    item_list

/-- `_get_deploy_metadata`. -/
def _get_deploy_metadata (deploys_resp : List (Nat × SerDeploy))
    (item_list : List Release) : List (Release × Option SerDeploy) :=
  let deploy_ids := (item_list.filterMap (fun o => o.last_deploy_id)).dedup
  let deploys := if deploy_ids.isEmpty then [] else deploys_resp
  dsetFold (fun item => item)
    (fun item => item.last_deploy_id.bind (fun did => dlookup deploys did))
    item_list

/-- `__get_project_id_list`: the explicit per-release project ids when
every item carries one, falling back to a `ReleaseProject` query. -/
def __get_project_id_list (env : AttrsEnv) (item_list : List Release) :
    List Nat × Bool :=
  let project_ids := (item_list.filterMap (fun r => r._for_project_id)).dedup
  let need_fallback := item_list.any (fun r => r._for_project_id.isNone)
  if !need_fallback then (pySorted project_ids, true)
  else (env.rpProjectIds, false)

/-- `__get_release_data_no_environment`.  The computed project-id list is
only forwarded to the tagstore call, whose response is
`env.releaseTags`. -/
def __get_release_data_no_environment (env : AttrsEnv)
    (project : Option Project) (item_list : List Release) :
    (String → Option Nat) × (String → Option Nat)
      × List (Nat × List (Nat × Option Nat)) :=
  let _pids_specialized :=
    match project with
    | some p => ([p.id], true)
    | none => __get_project_id_list env item_list
  let fsls := env.releaseTags.foldl stepNoEnv ((fun _ => none), (fun _ => none))
  let group_counts_by_release :=
    match project with
    | some p =>
        env.rpProjRows.foldl
          (fun gc rn => dset gc rn.1 [(p.id, rn.2)]) []
    | none =>
        env.rpAllRows.foldl
          (fun gc t => dsetdefault gc t.2.1 t.1 (some t.2.2)) []
  (fsls.1, fsls.2, group_counts_by_release)

/-- `__get_release_data_with_environments`.  The environment-name filter
and optional project filter are applied by the database; `env.rpeRows`
and `env.rpeAggRows` are the responses of the two queries. -/
def __get_release_data_with_environments (env : AttrsEnv)
    (project : Option Project) (item_list : List Release)
    (environments : List String) :
    (String → Option Nat) × (String → Option Nat)
      × List (Nat × List (Nat × Option Nat)) :=
  let fsls := env.rpeRows.foldl stepWithEnv ((fun _ => none), (fun _ => none))
  let group_counts_by_release :=
    env.rpeAggRows.foldl
      (fun gc t => dsetdefault gc t.2.1 t.1 t.2.2) []
  (fsls.1, fsls.2, group_counts_by_release)

/-- Resolution of the `environment`/`environments` keyword arguments at
the top of `get_attrs` (`if not environments` also treats an empty list
as absent). -/
def resolveEnvironments (kw : AttrsKwargs) : Option (List String) :=
  match kw.environments with
  | some l =>
      if l.isEmpty then kw.environment.map (fun n => [n]) else some l
  | none => kw.environment.map (fun n => [n])

/-- The release-data triple `get_attrs` uses, selected by the resolved
environments. -/
def releaseDataFor (env : AttrsEnv) (kw : AttrsKwargs)
    (item_list : List Release) :
    (String → Option Nat) × (String → Option Nat)
      × List (Nat × List (Nat × Option Nat)) :=
  match resolveEnvironments kw with
  | none => __get_release_data_no_environment env kw.project item_list
  | some envs =>
      __get_release_data_with_environments env kw.project item_list envs

/-- The health-data pair of `get_attrs`: the overview response when
health data was requested, otherwise the has-health-data set (empty under
`no_snuba`). -/
def healthFor (env : AttrsEnv) (kw : AttrsKwargs) :
    Option (List ((Nat × String) × HealthData)) × Option (List (Nat × String)) :=
  if kw.with_health_data then (some env.healthData, none)
  else (none, some (if kw.no_snuba then [] else env.hasHealthData))

/-- The `release_projects` dict of `get_attrs`: per-project entries
grouped by release id, with platform lists and health information. -/
def buildReleaseProjects (env : AttrsEnv) (kw : AttrsKwargs) :
    List (Nat × List ProjectRV) :=
  let platforms_by_project :=
    env.platforms.foldl
      (fun d pp => dset d pp.1 ((dlookup d pp.1).getD [] ++ [pp.2])) []
  let hd := healthFor env kw
  env.projectReleases.foldl (fun d pr =>
    let pr_rv : ProjectRV :=
      match hd.1 with
      | some hmap =>
          let v := dlookup hmap (pr.project_id, pr.release_version)
          { id := pr.project_id, slug := pr.project_slug,
            name := pr.project_name, new_groups := pr.new_groups,
            platform := pr.project_platform,
            platforms := (dlookup platforms_by_project pr.project_id).getD [],
            health_data := some v,
            has_health_data :=
              match v with
              | some x => x.has_health_data
              | none => false }
      | none =>
          { id := pr.project_id, slug := pr.project_slug,
            name := pr.project_name, new_groups := pr.new_groups,
            platform := pr.project_platform,
            platforms := (dlookup platforms_by_project pr.project_id).getD [],
            health_data := none,
            has_health_data :=
              decide ((pr.project_id, pr.release_version) ∈ hd.2.getD []) }
    dset d pr.release_id ((dlookup d pr.release_id).getD [] ++ [pr_rv])) []

/-- The attrs entry `get_attrs` builds for one item of `item_list`.  The
shared tables (owners, commit/deploy metadata, release projects) are
computed once by the source; recomputing them per item is value-equal. -/
def get_attrs_item (env : AttrsEnv) (kw : AttrsKwargs)
    (item_list : List Release) (user : Nat) (item : Release) : ReleaseAttrs :=
  let rd := releaseDataFor env kw item_list
  let owners := dsetFold (fun o => o.id) (fun o => o) env.ownersSer
  let release_metadata := _get_commit_metadata env.commitMeta item_list user
  let deploy_metadata := _get_deploy_metadata env.deploys item_list
  let release_projects := buildReleaseProjects env kw
  let single0 := (dlookup release_projects item.id).getD []
  let inner := (dlookup rd.2.2 item.id).getD []
  let sp : List ProjectRV × Nat :=
    match item._for_project_id with
    | some pid =>
        (single0.filter (fun x => x.id = pid),
         match dlookup inner pid with
         | some (some n) => n
         | _ => 0)
    | none => (single0, pySumOpt (dvalues inner))
  let cm := (dlookup release_metadata item).getD
    { authors := [], last_commit := none }
  { owner := item.owner_id.bind (fun oid => dlookup owners (toString oid)),
    new_groups := sp.2,
    projects := sp.1,
    first_seen := rd.1 item.version,
    last_seen := rd.2.1 item.version,
    authors := cm.authors,
    last_commit := cm.last_commit,
    last_deploy := ((dlookup deploy_metadata item).getD none) }

/-- `get_attrs`: raises when health data is requested together with
`no_snuba`, otherwise returns the per-item attrs dict. -/
def get_attrs (env : AttrsEnv) (item_list : List Release) (user : Nat)
    (kw : AttrsKwargs) : Except String (List (Release × ReleaseAttrs)) :=
  if kw.with_health_data && kw.no_snuba then
    Except.error "health data requires snuba"
  else
    Except.ok (dsetFold (fun item => item)
      (fun item => get_attrs_item env kw item_list user item) item_list)

end ReleaseSerializer

/-- The exposed version dict: `raw` plus, when parsing succeeded, the
parsed component keys (major, minor, patch, pre, buildCode,
components). -/
structure VersionOut where
  raw : String
  parsed : Option VersionParsed
deriving DecidableEq, Repr

/-- The `versionInfo` value of a serialized release. -/
structure ExposedVersionInfo where
  package : Option String
  version : VersionOut
  description : String
  buildHash : Option String
deriving DecidableEq, Repr

/-- `expose_version_info`. -/
def expose_version_info : Option VersionInfo → Option ExposedVersionInfo
  | none => none
  | some info =>
      some { package := info.package,
             version := { raw := info.version_raw,
                          parsed := info.version_parsed },
             description := info.description,
             buildHash := info.build_hash }

/-- The `healthData` value of a serialized project entry. -/
structure ExposedHealthData where
  durationP50 : Option Int
  durationP90 : Option Int
  crashFreeUsers : Option Int
  crashFreeSessions : Option Int
  sessionsCrashed : Int
  sessionsErrored : Int
  totalUsers : Int
  totalUsers24h : Int
  totalSessions : Int
  totalSessions24h : Int
  adoption : Option Int
  stats : Option String
  hasHealthData : Bool
deriving DecidableEq, Repr

/-- `expose_health_data` (nested in `ReleaseSerializer.serialize`). -/
def expose_health_data : Option HealthData → Option ExposedHealthData
  | none => none
  | some data =>
      some { durationP50 := data.duration_p50,
             durationP90 := data.duration_p90,
             crashFreeUsers := data.crash_free_users,
             crashFreeSessions := data.crash_free_sessions,
             sessionsCrashed := data.sessions_crashed,
             sessionsErrored := data.sessions_errored,
             totalUsers := data.total_users,
             totalUsers24h := data.total_users_24h,
             totalSessions := data.total_sessions,
             totalSessions24h := data.total_sessions_24h,
             adoption := data.adoption,
             stats := data.stats,
             hasHealthData := data.has_health_data }

/-- A serialized project entry of the release payload.  `healthData` is
`none` when the key is absent. -/
structure ExposedProject where
  id : Nat
  slug : String
  name : String
  newGroups : Option Nat
  platform : Option String
  platforms : List String
  hasHealthData : Bool
  healthData : Option (Option ExposedHealthData)
deriving DecidableEq, Repr

/-- `expose_project` (nested in `ReleaseSerializer.serialize`). -/
def expose_project (project : ProjectRV) : ExposedProject :=
  { id := project.id,
    slug := project.slug,
    name := project.name,
    newGroups := project.new_groups,
    platform := project.platform,
    platforms := project.platforms,
    hasHealthData := project.has_health_data,
    healthData := project.health_data.map expose_health_data }

/-- The JSON payload `ReleaseSerializer.serialize` returns. -/
structure SerializedRelease where
  version : String
  status : String
  shortVersion : String
  versionInfo : Option ExposedVersionInfo
  ref : Option String
  url : Option String
  dateReleased : Option Nat
  dateCreated : Nat
  data : String
  newGroups : Nat
  owner : Option SerOwner
  commitCount : Nat
  lastCommit : Option SerCommit
  deployCount : Nat
  lastDeploy : Option SerDeploy
  authors : List UserVal
  projects : List ExposedProject
  firstEvent : Option Nat
  lastEvent : Option Nat
deriving DecidableEq, Repr

/-- `ReleaseSerializer.serialize`.  `status_to_string` models the
external `ReleaseStatus.to_string`. -/
def ReleaseSerializer.serialize (status_to_string : Nat → String)
    (obj : Release) (attrs : ReleaseAttrs) : SerializedRelease :=
  { version := obj.version,
    status := status_to_string obj.status,
    shortVersion := obj.version,
    versionInfo := expose_version_info obj.version_info,
    ref := obj.ref,
    url := obj.url,
    dateReleased := obj.date_released,
    dateCreated := obj.date_added,
    data := obj.data,
    newGroups := attrs.new_groups,
    owner := attrs.owner,
    commitCount := obj.commit_count,
    lastCommit := attrs.last_commit,
    deployCount := obj.total_deploys,
    lastDeploy := attrs.last_deploy,
    authors := attrs.authors,
    projects := attrs.projects.map expose_project,
    firstEvent := attrs.first_seen,
    lastEvent := attrs.last_seen }

/-- The issue count `get_attrs` recorded for one release and project:
`some n` exactly when a non-null count was stored. -/
def recordedCount (gc : List (Nat × List (Nat × Option Nat)))
    (rid pid : Nat) : Option Nat :=
  match dlookup ((dlookup gc rid).getD []) pid with
  | some (some n) => some n
  | _ => none

/-- An `Integration` row; `provider` stands for the response of
`get_provider()`. -/
structure Integration where
  id : Nat
  provider : String
deriving DecidableEq, Repr

/-- An `OrganizationIntegration` row with its selected integration. -/
structure OrganizationIntegration where
  integration : Integration
deriving DecidableEq, Repr

/-- A `Repository` row. -/
structure Repository where
  id : Nat
  name : String
deriving DecidableEq, Repr

/-- A `RepositoryProjectPathConfig` row with its selected relations. -/
structure RepositoryProjectPathConfig where
  id : Nat
  project_id : Nat
  project : Project
  repository : Repository
  organization_integration : OrganizationIntegration
  stack_root : String
  source_root : String
  default_branch : Option String
deriving DecidableEq, Repr

/-- Opaque serialized provider payload. -/
abbrev SerProvider := String

/-- The payload `RepositoryProjectPathConfigSerializer.serialize`
returns. -/
structure SerializedPathConfig where
  id : String
  projectId : String
  projectSlug : String
  repoId : String
  repoName : String
  integrationId : String
  provider : SerProvider
  stackRoot : String
  sourceRoot : String
  defaultBranch : Option String
deriving DecidableEq, Repr

/-- `RepositoryProjectPathConfigSerializer.serialize`.
`serialize_provider` models the external provider serializer. -/
def RepositoryProjectPathConfigSerializer.serialize
    (serialize_provider : String → SerProvider)
    (obj : RepositoryProjectPathConfig) : SerializedPathConfig :=
  let integration := obj.organization_integration.integration
  let provider := integration.provider
  { id := toString obj.id,
    projectId := toString obj.project_id,
    projectSlug := obj.project.slug,
    repoId := toString obj.repository.id,
    repoName := obj.repository.name,
    integrationId := toString integration.id,
    provider := serialize_provider provider,
    stackRoot := obj.stack_root,
    sourceRoot := obj.source_root,
    defaultBranch := obj.default_branch }

/-- A sample collaborator environment for `get_users_for_authors` in
which every cache lookup misses and no user matches. -/
def gufaEnvW : GUFAEnv :=
  { md5hex := fun _ => "d41d8cd98f00b204e9800998ecf8427e",
    cached := fun _ => none,
    user_emails := [],
    users := [] }

/-- A sample commit author. -/
def authorW : Author :=
  { id := 7, name := "Jane", email := "jane@example.com" }

/-- A sample commit-metadata environment with no authors or commits. -/
def commitMetaEnvW : CommitMetaEnv :=
  { commit_authors := [], gufa := gufaEnvW, commits := [] }

/-- A sample `get_attrs` environment: one `ReleaseProject` count row for
project 1 on release 10, everything else empty. -/
def attrsEnvW : AttrsEnv :=
  { releaseTags := [],
    rpProjectIds := [],
    rpProjRows := [],
    rpAllRows := [(1, 10, 5)],
    rpeRows := [],
    rpeAggRows := [],
    ownersSer := [],
    commitMeta := commitMetaEnvW,
    deploys := [],
    projectReleases := [],
    platforms := [],
    healthData := [],
    hasHealthData := [] }

/-- A sample release scoped to project 1. -/
def releaseW : Release :=
  { id := 10, version := "1.0", organization_id := 1, owner_id := none,
    authors := [], last_commit_id := none, last_deploy_id := none,
    _for_project_id := some 1, status := 0, version_info := none,
    ref := none, url := none, date_released := none, date_added := 3,
    data := "", commit_count := 0, total_deploys := 0 }

/-- A second sample release in another organization. -/
def releaseW2 : Release :=
  { releaseW with id := 11, organization_id := 2 }

/-- Sample `get_attrs` keyword arguments: no project, no environments,
no health data. -/
def kwargsW : AttrsKwargs :=
  { project := none, environment := none, environments := none,
    with_health_data := false, no_snuba := false }

/-- The `get_attrs` result on the sample inputs. -/
def resW : List (Release × ReleaseAttrs) :=
  dsetFold (fun item => item)
    (fun item => ReleaseSerializer.get_attrs_item attrsEnvW kwargsW [releaseW] 0 item)
    [releaseW]

/-- The attrs entry of the sample release. -/
def attrsW : ReleaseAttrs :=
  ReleaseSerializer.get_attrs_item attrsEnvW kwargsW [releaseW] 0 releaseW

theorem dlookup_nil {κ β : Type} [DecidableEq κ] (k : κ) :
    dlookup ([] : List (κ × β)) k = none := rfl

theorem dlookup_dset {κ β : Type} [DecidableEq κ] (d : List (κ × β))
    (k k₁ : κ) (v : β) :
    dlookup (dset d k v) k₁ = if k = k₁ then some v else dlookup d k₁ := by
  induction d with
  | nil => simp [dset, dlookup]
  | cons p rest ih =>
    obtain ⟨k₂, v₂⟩ := p
    by_cases h : k₂ = k
    · subst h
      by_cases h₁ : k₂ = k₁ <;> simp [dset, dlookup, h₁]
    · by_cases h₁ : k₂ = k₁
      · subst h₁
        have hne : ¬ k = k₂ := fun hh => h hh.symm
        simp [dset, dlookup, h, hne]
      · simp [dset, dlookup, h, h₁, ih]

theorem dsetFoldFrom_lookup {α κ β : Type} [DecidableEq κ] (key : α → κ)
    (val : α → β) :
    ∀ (l : List α) (d : List (κ × β)) (k : κ),
      dlookup (dsetFoldFrom key val d l) k
        = lastWriteFrom key val (dlookup d k) l k := by
  intro l
  induction l with
  | nil => intro d k; rfl
  | cons a l ih =>
    intro d k
    simp only [dsetFoldFrom, lastWriteFrom, List.foldl_cons]
    have h₁ := ih (dset d (key a) (val a)) k
    simp only [dsetFoldFrom, lastWriteFrom] at h₁
    rw [h₁, dlookup_dset]

theorem lastWriteFrom_eq_some {α κ β : Type} [DecidableEq κ] (key : α → κ)
    (val : α → β) :
    ∀ (l : List α) (c : Option β) (k : κ) (v : β),
      lastWriteFrom key val c l k = some v →
      c = some v ∨ ∃ a ∈ l, key a = k ∧ val a = v := by
  intro l
  induction l with
  | nil => intro c k v h; exact Or.inl h
  | cons a l ih =>
    intro c k v h
    simp only [lastWriteFrom, List.foldl_cons] at h
    have h₂ := ih (if key a = k then some (val a) else c) k v
    simp only [lastWriteFrom] at h₂
    rcases h₂ h with h₃ | ⟨b, hb, hkey, hval⟩
    · by_cases hk : key a = k
      · right
        refine ⟨a, List.mem_cons_self a l, hk, ?_⟩
        rw [if_pos hk] at h₃
        exact Option.some.inj h₃
      · left
        rwa [if_neg hk] at h₃
    · exact Or.inr ⟨b, List.mem_cons_of_mem a hb, hkey, hval⟩

theorem lastWriteFrom_isSome {α κ β : Type} [DecidableEq κ] (key : α → κ)
    (val : α → β) :
    ∀ (l : List α) (c : Option β) (k : κ),
      (lastWriteFrom key val c l k).isSome
        ↔ c.isSome ∨ ∃ a ∈ l, key a = k := by
  intro l
  induction l with
  | nil => intro c k; simp [lastWriteFrom]
  | cons a l ih =>
    intro c k
    simp only [lastWriteFrom, List.foldl_cons]
    have h₂ := ih (if key a = k then some (val a) else c) k
    simp only [lastWriteFrom] at h₂
    rw [h₂]
    by_cases hk : key a = k
    · simp [hk, List.mem_cons]
    · simp only [if_neg hk]
      constructor
      · rintro (hc | ⟨b, hb, hkey⟩)
        · exact Or.inl hc
        · exact Or.inr ⟨b, List.mem_cons_of_mem a hb, hkey⟩
      · rintro (hc | ⟨b, hb, hkey⟩)
        · exact Or.inl hc
        · rcases List.mem_cons.mp hb with rfl | hb₂
          · exact absurd hkey hk
          · exact Or.inr ⟨b, hb₂, hkey⟩

theorem dsetFoldOptFrom_lookup {α κ β : Type} [DecidableEq κ] (key : α → κ)
    (val : α → Option β) :
    ∀ (l : List α) (d : List (κ × β)) (k : κ),
      dlookup (dsetFoldOptFrom key val d l) k
        = lastWriteOptFrom key val (dlookup d k) l k := by
  intro l
  induction l with
  | nil => intro d k; rfl
  | cons a l ih =>
    intro d k
    simp only [dsetFoldOptFrom, lastWriteOptFrom, List.foldl_cons]
    cases hv : val a with
    | none =>
      have h₁ := ih d k
      simp only [dsetFoldOptFrom, lastWriteOptFrom] at h₁
      exact h₁
    | some w =>
      have h₁ := ih (dset d (key a) w) k
      simp only [dsetFoldOptFrom, lastWriteOptFrom] at h₁
      rw [h₁, dlookup_dset]

theorem lastWriteOptFrom_eq_some {α κ β : Type} [DecidableEq κ]
    (key : α → κ) (val : α → Option β) :
    ∀ (l : List α) (c : Option β) (k : κ) (v : β),
      lastWriteOptFrom key val c l k = some v →
      c = some v ∨ ∃ a ∈ l, key a = k ∧ val a = some v := by
  intro l
  induction l with
  | nil => intro c k v h; exact Or.inl h
  | cons a l ih =>
    intro c k v h
    simp only [lastWriteOptFrom, List.foldl_cons] at h
    cases hv : val a with
    | none =>
      rw [hv] at h
      have h₂ := ih c k v
      simp only [lastWriteOptFrom] at h₂
      rcases h₂ h with h₃ | ⟨b, hb, hkey, hval⟩
      · exact Or.inl h₃
      · exact Or.inr ⟨b, List.mem_cons_of_mem a hb, hkey, hval⟩
    | some w =>
      rw [hv] at h
      have h₂ := ih (if key a = k then some w else c) k v
      simp only [lastWriteOptFrom] at h₂
      rcases h₂ h with h₃ | ⟨b, hb, hkey, hval⟩
      · by_cases hk : key a = k
        · right
          refine ⟨a, List.mem_cons_self a l, hk, ?_⟩
          rw [if_pos hk] at h₃
          rw [hv, h₃]
        · left
          rwa [if_neg hk] at h₃
      · exact Or.inr ⟨b, List.mem_cons_of_mem a hb, hkey, hval⟩

theorem lastWriteOptFrom_isSome {α κ β : Type} [DecidableEq κ]
    (key : α → κ) (val : α → Option β) :
    ∀ (l : List α) (c : Option β) (k : κ),
      (lastWriteOptFrom key val c l k).isSome
        ↔ c.isSome ∨ ∃ a ∈ l, key a = k ∧ (val a).isSome := by
  intro l
  induction l with
  | nil => intro c k; simp [lastWriteOptFrom]
  | cons a l ih =>
    intro c k
    simp only [lastWriteOptFrom, List.foldl_cons]
    cases hv : val a with
    | none =>
      have h₂ := ih c k
      simp only [lastWriteOptFrom] at h₂
      rw [h₂]
      constructor
      · rintro (hc | ⟨b, hb, hkey, hsome⟩)
        · exact Or.inl hc
        · exact Or.inr ⟨b, List.mem_cons_of_mem a hb, hkey, hsome⟩
      · rintro (hc | ⟨b, hb, hkey, hsome⟩)
        · exact Or.inl hc
        · rcases List.mem_cons.mp hb with rfl | hb₂
          · rw [hv] at hsome; exact absurd hsome (by simp)
          · exact Or.inr ⟨b, hb₂, hkey, hsome⟩
    | some w =>
      have h₂ := ih (if key a = k then some w else c) k
      simp only [lastWriteOptFrom] at h₂
      rw [h₂]
      by_cases hk : key a = k
      · constructor
        · intro; exact Or.inr ⟨a, List.mem_cons_self a l, hk, by rw [hv]; rfl⟩
        · intro; left; simp [hk]
      · simp only [if_neg hk]
        constructor
        · rintro (hc | ⟨b, hb, hkey, hsome⟩)
          · exact Or.inl hc
          · exact Or.inr ⟨b, List.mem_cons_of_mem a hb, hkey, hsome⟩
        · rintro (hc | ⟨b, hb, hkey, hsome⟩)
          · exact Or.inl hc
          · rcases List.mem_cons.mp hb with rfl | hb₂
            · exact absurd hkey hk
            · exact Or.inr ⟨b, hb₂, hkey, hsome⟩

theorem optMin_none_left (b : Option Nat) : optMin none b = b := by
  cases b <;> rfl

theorem optMin_none_right (a : Option Nat) : optMin a none = a := by
  cases a <;> rfl

theorem optMin_comm (a b : Option Nat) : optMin a b = optMin b a := by
  cases a <;> cases b <;> simp [optMin, Nat.min_comm]

theorem optMin_assoc (a b c : Option Nat) :
    optMin (optMin a b) c = optMin a (optMin b c) := by
  cases a <;> cases b <;> cases c <;> simp [optMin, Nat.min_assoc]

theorem optMax_none_left (b : Option Nat) : optMax none b = b := by
  cases b <;> rfl

theorem optMax_none_right (a : Option Nat) : optMax a none = a := by
  cases a <;> rfl

theorem optMax_comm (a b : Option Nat) : optMax a b = optMax b a := by
  cases a <;> cases b <;> simp [optMax, Nat.max_comm]

theorem optMax_assoc (a b c : Option Nat) :
    optMax (optMax a b) c = optMax a (optMax b c) := by
  cases a <;> cases b <;> cases c <;> simp [optMax, Nat.max_assoc]

theorem minOfList_cons (x : Nat) (xs : List Nat) :
    minOfList (x :: xs) = optMin (some x) (minOfList xs) := by
  cases h : minOfList xs <;> simp [minOfList, optMin, h]

theorem maxOfList_cons (x : Nat) (xs : List Nat) :
    maxOfList (x :: xs) = optMax (some x) (maxOfList xs) := by
  cases h : maxOfList xs <;> simp [maxOfList, optMax, h]

theorem stepFirstNoEnv_at_key (fs : String → Option Nat) (tv : TagValue) :
    stepFirstNoEnv fs tv tv.value = optMin (some tv.first_seen) (fs tv.value) := by
  cases h : fs tv.value <;> simp [stepFirstNoEnv, optMin, h]

theorem stepFirstNoEnv_off_key (fs : String → Option Nat) (tv : TagValue)
    (v : String) (h : ¬v = tv.value) : stepFirstNoEnv fs tv v = fs v := by
  simp [stepFirstNoEnv, h]

theorem stepLastNoEnv_at_key (ls : String → Option Nat) (tv : TagValue) :
    stepLastNoEnv ls tv tv.value = optMax (some tv.last_seen) (ls tv.value) := by
  cases h : ls tv.value <;> simp [stepLastNoEnv, optMax, h]

theorem stepLastNoEnv_off_key (ls : String → Option Nat) (tv : TagValue)
    (v : String) (h : ¬v = tv.value) : stepLastNoEnv ls tv v = ls v := by
  simp [stepLastNoEnv, h]

theorem stepFirstWithEnv_at_key (fs : String → Option Nat) (row : RPERow) :
    stepFirstWithEnv fs row row.release_version
      = optMin (some row.first_seen) (fs row.release_version) := by
  cases h : fs row.release_version with
  | none => simp [stepFirstWithEnv, h, optMin]
  | some f =>
    simp only [stepFirstWithEnv, h]
    by_cases hgt : f > row.first_seen
    · simp [hgt, optMin, Nat.min_eq_left (Nat.le_of_lt hgt)]
    · simp [hgt, optMin, h, Nat.min_eq_right (Nat.le_of_not_lt hgt)]

theorem stepFirstWithEnv_off_key (fs : String → Option Nat) (row : RPERow)
    (v : String) (h : ¬v = row.release_version) :
    stepFirstWithEnv fs row v = fs v := by
  cases hf : fs row.release_version with
  | none => simp [stepFirstWithEnv, hf, h]
  | some f =>
    simp only [stepFirstWithEnv, hf]
    by_cases hgt : f > row.first_seen <;> simp [hgt, h]

theorem stepLastWithEnv_at_key (ls : String → Option Nat) (row : RPERow) :
    stepLastWithEnv ls row row.release_version
      = optMax (some row.last_seen) (ls row.release_version) := by
  cases h : ls row.release_version with
  | none => simp [stepLastWithEnv, h, optMax]
  | some l =>
    simp only [stepLastWithEnv, h]
    by_cases hlt : l < row.last_seen
    · simp [hlt, optMax, Nat.max_eq_left (Nat.le_of_lt hlt)]
    · simp [hlt, optMax, h, Nat.max_eq_right (Nat.le_of_not_lt hlt)]

theorem stepLastWithEnv_off_key (ls : String → Option Nat) (row : RPERow)
    (v : String) (h : ¬v = row.release_version) :
    stepLastWithEnv ls row v = ls v := by
  cases hf : ls row.release_version with
  | none => simp [stepLastWithEnv, hf, h]
  | some l =>
    simp only [stepLastWithEnv, hf]
    by_cases hlt : l < row.last_seen <;> simp [hlt, h]

theorem foldl_stepNoEnv_fst :
    ∀ (l : List TagValue) (p : (String → Option Nat) × (String → Option Nat)),
      (l.foldl stepNoEnv p).1 = l.foldl stepFirstNoEnv p.1 := by
  intro l
  induction l with
  | nil => intro p; rfl
  | cons tv l ih =>
    intro p
    simp only [List.foldl_cons]
    exact ih (stepNoEnv p tv)

theorem foldl_stepNoEnv_snd :
    ∀ (l : List TagValue) (p : (String → Option Nat) × (String → Option Nat)),
      (l.foldl stepNoEnv p).2 = l.foldl stepLastNoEnv p.2 := by
  intro l
  induction l with
  | nil => intro p; rfl
  | cons tv l ih =>
    intro p
    simp only [List.foldl_cons]
    exact ih (stepNoEnv p tv)

theorem foldl_stepWithEnv_fst :
    ∀ (l : List RPERow) (p : (String → Option Nat) × (String → Option Nat)),
      (l.foldl stepWithEnv p).1 = l.foldl stepFirstWithEnv p.1 := by
  intro l
  induction l with
  | nil => intro p; rfl
  | cons row l ih =>
    intro p
    simp only [List.foldl_cons]
    exact ih (stepWithEnv p row)

theorem foldl_stepWithEnv_snd :
    ∀ (l : List RPERow) (p : (String → Option Nat) × (String → Option Nat)),
      (l.foldl stepWithEnv p).2 = l.foldl stepLastWithEnv p.2 := by
  intro l
  induction l with
  | nil => intro p; rfl
  | cons row l ih =>
    intro p
    simp only [List.foldl_cons]
    exact ih (stepWithEnv p row)

theorem foldl_stepFirstNoEnv_char :
    ∀ (l : List TagValue) (fs : String → Option Nat) (v : String),
      l.foldl stepFirstNoEnv fs v
        = optMin (fs v)
            (minOfList ((l.filter (fun tv => tv.value = v)).map
              (fun tv => tv.first_seen))) := by
  intro l
  induction l with
  | nil => intro fs v; simp [minOfList, optMin_none_right]
  | cons tv l ih =>
    intro fs v
    simp only [List.foldl_cons]
    rw [ih]
    by_cases h : tv.value = v
    · subst h
      rw [stepFirstNoEnv_at_key]
      rw [List.filter_cons_of_pos (by simp), List.map_cons, minOfList_cons]
      rw [optMin_comm (some tv.first_seen) (fs tv.value), optMin_assoc]
    · rw [List.filter_cons_of_neg (by simp [h]),
        stepFirstNoEnv_off_key fs tv v (fun hh => h hh.symm)]

theorem foldl_stepLastNoEnv_char :
    ∀ (l : List TagValue) (ls : String → Option Nat) (v : String),
      l.foldl stepLastNoEnv ls v
        = optMax (ls v)
            (maxOfList ((l.filter (fun tv => tv.value = v)).map
              (fun tv => tv.last_seen))) := by
  intro l
  induction l with
  | nil => intro ls v; simp [maxOfList, optMax_none_right]
  | cons tv l ih =>
    intro ls v
    simp only [List.foldl_cons]
    rw [ih]
    by_cases h : tv.value = v
    · subst h
      rw [stepLastNoEnv_at_key]
      rw [List.filter_cons_of_pos (by simp), List.map_cons, maxOfList_cons]
      rw [optMax_comm (some tv.last_seen) (ls tv.value), optMax_assoc]
    · rw [List.filter_cons_of_neg (by simp [h]),
        stepLastNoEnv_off_key ls tv v (fun hh => h hh.symm)]

theorem foldl_stepFirstWithEnv_char :
    ∀ (l : List RPERow) (fs : String → Option Nat) (v : String),
      l.foldl stepFirstWithEnv fs v
        = optMin (fs v)
            (minOfList ((l.filter (fun r => r.release_version = v)).map
              (fun r => r.first_seen))) := by
  intro l
  induction l with
  | nil => intro fs v; simp [minOfList, optMin_none_right]
  | cons row l ih =>
    intro fs v
    simp only [List.foldl_cons]
    rw [ih]
    by_cases h : row.release_version = v
    · subst h
      rw [stepFirstWithEnv_at_key]
      rw [List.filter_cons_of_pos (by simp), List.map_cons, minOfList_cons]
      rw [optMin_comm (some row.first_seen) (fs row.release_version), optMin_assoc]
    · rw [List.filter_cons_of_neg (by simp [h]),
        stepFirstWithEnv_off_key fs row v (fun hh => h hh.symm)]

theorem foldl_stepLastWithEnv_char :
    ∀ (l : List RPERow) (ls : String → Option Nat) (v : String),
      l.foldl stepLastWithEnv ls v
        = optMax (ls v)
            (maxOfList ((l.filter (fun r => r.release_version = v)).map
              (fun r => r.last_seen))) := by
  intro l
  induction l with
  | nil => intro ls v; simp [maxOfList, optMax_none_right]
  | cons row l ih =>
    intro ls v
    simp only [List.foldl_cons]
    rw [ih]
    by_cases h : row.release_version = v
    · subst h
      rw [stepLastWithEnv_at_key]
      rw [List.filter_cons_of_pos (by simp), List.map_cons, maxOfList_cons]
      rw [optMax_comm (some row.last_seen) (ls row.release_version), optMax_assoc]
    · rw [List.filter_cons_of_neg (by simp [h]),
        stepLastWithEnv_off_key ls row v (fun hh => h hh.symm)]

/-- Claim C1: in `__get_release_data_no_environment` the returned
`first_seen` dict maps each tag value to the minimum of `first_seen` over
the returned tag values with that value and `last_seen` to the maximum of
`last_seen`; in `__get_release_data_with_environments` the returned dicts
map each release version to the minimum `first_seen` and the maximum
`last_seen` over the matching `ReleaseProjectEnvironment` rows. -/
theorem release_data_minmax_aggregation (env : AttrsEnv)
    (project : Option Project) (item_list : List Release)
    (environments : List String) (v : String) :
    ((ReleaseSerializer.__get_release_data_no_environment env project item_list).1 v
       = minOfList ((env.releaseTags.filter (fun tv => tv.value = v)).map
           (fun tv => tv.first_seen)))
  ∧ ((ReleaseSerializer.__get_release_data_no_environment env project item_list).2.1 v
       = maxOfList ((env.releaseTags.filter (fun tv => tv.value = v)).map
           (fun tv => tv.last_seen)))
  ∧ ((ReleaseSerializer.__get_release_data_with_environments env project item_list
        environments).1 v
       = minOfList ((env.rpeRows.filter (fun r => r.release_version = v)).map
           (fun r => r.first_seen)))
  ∧ ((ReleaseSerializer.__get_release_data_with_environments env project item_list
        environments).2.1 v
       = maxOfList ((env.rpeRows.filter (fun r => r.release_version = v)).map
           (fun r => r.last_seen))) := by
  refine ⟨?_, ?_, ?_, ?_⟩
  · show (env.releaseTags.foldl stepNoEnv ((fun _ => none), (fun _ => none))).1 v
      = minOfList ((env.releaseTags.filter (fun tv => tv.value = v)).map
          (fun tv => tv.first_seen))
    rw [foldl_stepNoEnv_fst, foldl_stepFirstNoEnv_char]
    exact optMin_none_left _
  · show (env.releaseTags.foldl stepNoEnv ((fun _ => none), (fun _ => none))).2 v
      = maxOfList ((env.releaseTags.filter (fun tv => tv.value = v)).map
          (fun tv => tv.last_seen))
    rw [foldl_stepNoEnv_snd, foldl_stepLastNoEnv_char]
    exact optMax_none_left _
  · show (env.rpeRows.foldl stepWithEnv ((fun _ => none), (fun _ => none))).1 v
      = minOfList ((env.rpeRows.filter (fun r => r.release_version = v)).map
          (fun r => r.first_seen))
    rw [foldl_stepWithEnv_fst, foldl_stepFirstWithEnv_char]
    exact optMin_none_left _
  · show (env.rpeRows.foldl stepWithEnv ((fun _ => none), (fun _ => none))).2 v
      = maxOfList ((env.rpeRows.filter (fun r => r.release_version = v)).map
          (fun r => r.last_seen))
    rw [foldl_stepWithEnv_snd, foldl_stepLastWithEnv_char]
    exact optMax_none_left _

/-- Claim C2: `_user_to_author_cache_key` returns the literal prefix,
the organization id, a colon, and the md5 hex digest of the lowercased
author email; two authors whose emails agree up to ASCII case get the
same key. -/
theorem user_to_author_cache_key_spec (md5hex : String → String)
    (organization_id : Nat) (a : Author) :
    (_user_to_author_cache_key md5hex organization_id a
       = "get_users_for_authors:" ++ toString organization_id ++ ":"
           ++ md5hex a.email.toLower)
  ∧ (∀ b : Author, a.email.toLower = b.email.toLower →
       _user_to_author_cache_key md5hex organization_id a
         = _user_to_author_cache_key md5hex organization_id b) := by
  constructor
  · rfl
  · intro b hb
    simp only [_user_to_author_cache_key, hb]

theorem user_to_author_cache_key_spec_witness :
    _user_to_author_cache_key (fun s => s) 1
        { id := 1, name := "n", email := "Ab@X.com" }
      = _user_to_author_cache_key (fun s => s) 1
        { id := 2, name := "m", email := "Ab@X.com" } :=
  (user_to_author_cache_key_spec (fun s => s) 1
    { id := 1, name := "n", email := "Ab@X.com" }).2
    { id := 2, name := "m", email := "Ab@X.com" } rfl

/-- Claim C3: `get_attrs` raises the validation error exactly when both
`with_health_data` and `no_snuba` are truthy; for every other
combination of the two flags no such error is raised. -/
theorem get_attrs_health_requires_snuba (env : AttrsEnv)
    (item_list : List Release) (user : Nat) (kw : AttrsKwargs) :
    (∃ e, ReleaseSerializer.get_attrs env item_list user kw = Except.error e)
      ↔ (kw.with_health_data = true ∧ kw.no_snuba = true) := by
  cases hw : kw.with_health_data <;> cases hn : kw.no_snuba <;>
    simp [ReleaseSerializer.get_attrs, hw, hn]

/-- Claim C4: `ReleaseSerializer.serialize` reshapes the input row:
version and shortVersion are the release version, ref, url, the dates,
the commit and deploy counts and newGroups come straight from the row
and attrs, and versionInfo is None exactly when version_info is None. -/
theorem release_serialize_reshapes (status_to_string : Nat → String)
    (obj : Release) (attrs : ReleaseAttrs) :
    ((ReleaseSerializer.serialize status_to_string obj attrs).version = obj.version)
  ∧ ((ReleaseSerializer.serialize status_to_string obj attrs).shortVersion = obj.version)
  ∧ ((ReleaseSerializer.serialize status_to_string obj attrs).ref = obj.ref)
  ∧ ((ReleaseSerializer.serialize status_to_string obj attrs).url = obj.url)
  ∧ ((ReleaseSerializer.serialize status_to_string obj attrs).dateReleased
       = obj.date_released)
  ∧ ((ReleaseSerializer.serialize status_to_string obj attrs).dateCreated
       = obj.date_added)
  ∧ ((ReleaseSerializer.serialize status_to_string obj attrs).commitCount
       = obj.commit_count)
  ∧ ((ReleaseSerializer.serialize status_to_string obj attrs).deployCount
       = obj.total_deploys)
  ∧ ((ReleaseSerializer.serialize status_to_string obj attrs).newGroups
       = attrs.new_groups)
  ∧ (((ReleaseSerializer.serialize status_to_string obj attrs).versionInfo = none)
       ↔ obj.version_info = none) := by
  refine ⟨rfl, rfl, rfl, rfl, rfl, rfl, rfl, rfl, rfl, ?_⟩
  cases hvi : obj.version_info <;>
    simp [ReleaseSerializer.serialize, expose_version_info, hvi]

/-- Claim C8: `RepositoryProjectPathConfigSerializer.serialize` copies
the row: id, projectId, projectSlug, repoId, repoName, integrationId,
stackRoot, sourceRoot and defaultBranch all match the input row. -/
theorem path_config_serialize_matches_row
    (serialize_provider : String → SerProvider)
    (obj : RepositoryProjectPathConfig) :
    ((RepositoryProjectPathConfigSerializer.serialize serialize_provider obj).id
       = toString obj.id)
  ∧ ((RepositoryProjectPathConfigSerializer.serialize serialize_provider obj).projectId
       = toString obj.project_id)
  ∧ ((RepositoryProjectPathConfigSerializer.serialize serialize_provider obj).projectSlug
       = obj.project.slug)
  ∧ ((RepositoryProjectPathConfigSerializer.serialize serialize_provider obj).repoId
       = toString obj.repository.id)
  ∧ ((RepositoryProjectPathConfigSerializer.serialize serialize_provider obj).repoName
       = obj.repository.name)
  ∧ ((RepositoryProjectPathConfigSerializer.serialize serialize_provider obj).integrationId
       = toString obj.organization_integration.integration.id)
  ∧ ((RepositoryProjectPathConfigSerializer.serialize serialize_provider obj).stackRoot
       = obj.stack_root)
  ∧ ((RepositoryProjectPathConfigSerializer.serialize serialize_provider obj).sourceRoot
       = obj.source_root)
  ∧ ((RepositoryProjectPathConfigSerializer.serialize serialize_provider obj).defaultBranch
       = obj.default_branch) :=
  ⟨rfl, rfl, rfl, rfl, rfl, rfl, rfl, rfl, rfl⟩

/-- Claim C10: `get_attrs` is deterministic: two runs with equal item
lists, user and keyword arguments, and equal collaborator responses,
return equal results; the embedding keeps no state between calls. -/
theorem get_attrs_deterministic (env₁ env₂ : AttrsEnv)
    (items₁ items₂ : List Release) (user₁ user₂ : Nat)
    (kw₁ kw₂ : AttrsKwargs) (henv : env₁ = env₂) (hitems : items₁ = items₂)
    (huser : user₁ = user₂) (hkw : kw₁ = kw₂) :
    ReleaseSerializer.get_attrs env₁ items₁ user₁ kw₁
      = ReleaseSerializer.get_attrs env₂ items₂ user₂ kw₂ := by
  subst henv
  subst hitems
  subst huser
  subst hkw
  rfl

theorem get_attrs_deterministic_witness :
    ReleaseSerializer.get_attrs attrsEnvW [releaseW] 0 kwargsW
      = ReleaseSerializer.get_attrs attrsEnvW [releaseW] 0 kwargsW :=
  get_attrs_deterministic attrsEnvW attrsEnvW [releaseW] [releaseW] 0 0
    kwargsW kwargsW rfl rfl rfl rfl

theorem pySumOpt_aux :
    ∀ (l : List (Option Nat)) (n : Nat),
      l.foldl (fun acc v => acc + v.getD 0) n
        = n + (l.map (fun v => v.getD 0)).sum := by
  intro l
  induction l with
  | nil => intro n; simp
  | cons x l ih =>
    intro n
    simp only [List.foldl_cons, List.map_cons, List.sum_cons]
    rw [ih]
    omega

theorem pySumOpt_eq_sum (l : List (Option Nat)) :
    pySumOpt l = (l.map (fun v => v.getD 0)).sum := by
  simp only [pySumOpt]
  rw [pySumOpt_aux l 0, Nat.zero_add]

theorem dsetFold_id_eq_some {α β : Type} [DecidableEq α] (val : α → β)
    (l : List α) (x : α) (v : β)
    (h : dlookup (dsetFold (fun a => a) val l) x = some v) : v = val x := by
  rw [dsetFold, dsetFoldFrom_lookup] at h
  rcases lastWriteFrom_eq_some _ _ l _ x v h with h₁ | ⟨a, _, hkey, hval⟩
  · rw [dlookup_nil] at h₁
    exact absurd h₁ (by simp)
  · have : a = x := hkey
    rw [this] at hval
    exact hval.symm

theorem users_by_author_for_multi_org (env : CommitMetaEnv)
    (item_list : List Release) (user : Nat) (authors : List Author)
    (h : 1 < ((item_list.map (fun i => i.organization_id)).dedup).length) :
    ReleaseSerializer.users_by_author_for env item_list user authors = [] := by
  unfold ReleaseSerializer.users_by_author_for
  split
  · rfl
  · rcases hd : (item_list.map (fun i => i.organization_id)).dedup
      with _ | ⟨x, _ | ⟨y, t⟩⟩
    · simp [hd]
    · rw [hd] at h
      simp at h
    · simp [hd]

theorem item_authors_fold_aux :
    ∀ (l : List String) (acc : List String × List UserVal),
      l.foldl (fun acc a =>
        match dlookup ([] : List (String × UserVal)) a with
        | some u =>
            if u.email ∈ acc.1 then acc
            else (acc.1 ++ [u.email], acc.2 ++ [u])
        | none => acc) acc = acc := by
  intro l
  induction l with
  | nil => intro acc; rfl
  | cons a l ih =>
    intro acc
    simp only [List.foldl_cons, dlookup]
    exact ih acc

theorem item_authors_fold_nil (l : List String) :
    ReleaseSerializer.item_authors_fold [] l = ([], []) := by
  simp only [ReleaseSerializer.item_authors_fold]
  exact item_authors_fold_aux l ([], [])

/-- Claim C7: if the releases span more than one organization, the
commit metadata of every release has an empty authors list. -/
theorem commit_metadata_multi_org_no_authors (env : CommitMetaEnv)
    (item_list : List Release) (user : Nat)
    (h : 1 < ((item_list.map (fun i => i.organization_id)).dedup).length) :
    ∀ item meta,
      dlookup (ReleaseSerializer._get_commit_metadata env item_list user) item
        = some meta →
      meta.authors = [] := by
  intro item meta hlook
  simp only [ReleaseSerializer._get_commit_metadata] at hlook
  rw [users_by_author_for_multi_org env item_list user _ h] at hlook
  have hval := dsetFold_id_eq_some _ item_list item meta hlook
  rw [hval]
  show (ReleaseSerializer.item_authors_fold [] item.authors).2 = []
  rw [item_authors_fold_nil]

theorem commit_metadata_multi_org_no_authors_witness :
    ({ authors := [], last_commit := none } : CommitMeta).authors
      = ([] : List UserVal) :=
  commit_metadata_multi_org_no_authors commitMetaEnvW [releaseW, releaseW2] 0
    (by decide) releaseW { authors := [], last_commit := none } (by rfl)

/-- Claim C6: in the `get_attrs` result, a release scoped to one project
gets only project entries with that project id and its newGroups is the
count recorded for it (0 when absent); an unscoped release gets the sum
of the per-project counts. -/
theorem get_attrs_projects_new_groups (env : AttrsEnv)
    (item_list : List Release) (user : Nat) (kw : AttrsKwargs)
    (res : List (Release × ReleaseAttrs))
    (h : ReleaseSerializer.get_attrs env item_list user kw = Except.ok res) :
    ∀ item attrs, dlookup res item = some attrs →
      ((∀ pid, item._for_project_id = some pid →
          (∀ x ∈ attrs.projects, x.id = pid)
        ∧ attrs.new_groups
            = (recordedCount
                (ReleaseSerializer.releaseDataFor env kw item_list).2.2
                item.id pid).getD 0)
      ∧ (item._for_project_id = none →
          attrs.new_groups
            = ((dvalues ((dlookup
                (ReleaseSerializer.releaseDataFor env kw item_list).2.2
                item.id).getD [])).map (fun c => c.getD 0)).sum)) := by
  intro item attrs hlook
  have hres : res = dsetFold (fun it => it)
      (fun it => ReleaseSerializer.get_attrs_item env kw item_list user it)
      item_list := by
    simp only [ReleaseSerializer.get_attrs] at h
    split at h
    · exact absurd h (by simp)
    · exact (Except.ok.inj h).symm
  subst hres
  have hval := dsetFold_id_eq_some _ item_list item attrs hlook
  subst hval
  constructor
  · intro pid hpid
    constructor
    · intro x hx
      simp only [ReleaseSerializer.get_attrs_item, hpid] at hx
      exact of_decide_eq_true (List.mem_filter.mp hx).2
    · simp only [ReleaseSerializer.get_attrs_item, hpid, recordedCount]
      cases hdl : dlookup ((dlookup
          (ReleaseSerializer.releaseDataFor env kw item_list).2.2
          item.id).getD []) pid with
      | none => simp [hdl]
      | some o => cases o <;> simp [hdl]
  · intro hpid
    simp only [ReleaseSerializer.get_attrs_item, hpid]
    exact pySumOpt_eq_sum _

theorem get_attrs_projects_new_groups_witness :
    (∀ x ∈ attrsW.projects, x.id = 1)
  ∧ attrsW.new_groups
      = (recordedCount
          (ReleaseSerializer.releaseDataFor attrsEnvW kwargsW [releaseW]).2.2
          releaseW.id 1).getD 0 :=
  (get_attrs_projects_new_groups attrsEnvW [releaseW] 0 kwargsW resW rfl
    releaseW attrsW rfl).1 1 rfl

/-- Claim C9: the trace of `get_users_for_authors` holds exactly one
bulk cache read and at most one `UserEmail` query, one `User` query and
one bulk cache write, independently of the number of authors. -/
theorem gufa_constant_external_lookups (env : GUFAEnv)
    (organization_id : Nat) (authors : List Author) (user : Nat) :
    ((get_users_for_authors_traced env organization_id authors user).2.count
        ExtCall.cacheGetMany = 1)
  ∧ ((get_users_for_authors_traced env organization_id authors user).2.count
        ExtCall.userEmailQuery ≤ 1)
  ∧ ((get_users_for_authors_traced env organization_id authors user).2.count
        ExtCall.userQuery ≤ 1)
  ∧ ((get_users_for_authors_traced env organization_id authors user).2.count
        ExtCall.cacheSetMany ≤ 1)
  ∧ ((get_users_for_authors_traced env organization_id authors user).2.length
        ≤ 4) := by
  have htr : (get_users_for_authors_traced env organization_id authors user).2
        = [ExtCall.cacheGetMany]
    ∨ (get_users_for_authors_traced env organization_id authors user).2
        = [ExtCall.cacheGetMany, ExtCall.userEmailQuery, ExtCall.userQuery,
           ExtCall.cacheSetMany] := by
    simp only [get_users_for_authors_traced]
    split
    · exact Or.inl rfl
    · exact Or.inr rfl
  rcases htr with h | h <;> rw [h] <;>
    refine ⟨?_, ?_, ?_, ?_, ?_⟩ <;> decide

theorem gufaPhase1_fold_fst (env : GUFAEnv) (oid : Nat) :
    ∀ (l : List Author) (acc : List (String × UserVal) × List Author),
      (l.foldl (gufaPhase1Step env oid) acc).1
        = dsetFoldOptFrom (fun a => toString a.id) (gufaCacheHit env oid)
            acc.1 l := by
  intro l
  induction l with
  | nil => intro acc; rfl
  | cons a l ih =>
    intro acc
    rw [List.foldl_cons, ih (gufaPhase1Step env oid acc a)]
    simp only [dsetFoldOptFrom, List.foldl_cons]
    cases hv : gufaCacheHit env oid a <;>
      simp only [gufaPhase1Step, hv]

theorem gufaPhase1_fold_snd (env : GUFAEnv) (oid : Nat) :
    ∀ (l : List Author) (acc : List (String × UserVal) × List Author),
      (l.foldl (gufaPhase1Step env oid) acc).2
        = acc.2 ++ l.filter (fun a => (gufaCacheHit env oid a).isNone) := by
  intro l
  induction l with
  | nil => intro acc; simp
  | cons a l ih =>
    intro acc
    rw [List.foldl_cons, ih (gufaPhase1Step env oid acc a)]
    cases hv : gufaCacheHit env oid a with
    | none =>
      simp only [gufaPhase1Step, hv, List.filter_cons]
      simp [hv, List.append_assoc]
    | some u =>
      simp only [gufaPhase1Step, hv, List.filter_cons]
      simp [hv]

theorem gufaPhase1_missed_pos (env : GUFAEnv) (oid : Nat)
    (authors : List Author)
    (hA : authors.any (fun a => (gufaCacheHit env oid a).isSome) = true) :
    (gufaPhase1 env oid authors).2
      = authors.filter (fun a => (gufaCacheHit env oid a).isNone) := by
  unfold gufaPhase1
  rw [if_pos hA]
  have h := gufaPhase1_fold_snd env oid authors ([], [])
  simpa using h

theorem gufaPhase1_missed_neg (env : GUFAEnv) (oid : Nat)
    (authors : List Author)
    (hA : ¬authors.any (fun a => (gufaCacheHit env oid a).isSome) = true) :
    (gufaPhase1 env oid authors).2 = authors := by
  unfold gufaPhase1
  rw [if_neg hA]

theorem gufaPhase1_lookup_pos (env : GUFAEnv) (oid : Nat)
    (authors : List Author)
    (hA : authors.any (fun a => (gufaCacheHit env oid a).isSome) = true)
    (k : String) :
    dlookup (gufaPhase1 env oid authors).1 k
      = lastWriteOptFrom (fun a => toString a.id) (gufaCacheHit env oid)
          none authors k := by
  unfold gufaPhase1
  rw [if_pos hA]
  rw [gufaPhase1_fold_fst env oid authors ([], [])]
  rw [dsetFoldOptFrom_lookup]
  rfl

theorem gufaPhase1_fst_neg (env : GUFAEnv) (oid : Nat)
    (authors : List Author)
    (hA : ¬authors.any (fun a => (gufaCacheHit env oid a).isSome) = true) :
    (gufaPhase1 env oid authors).1 = [] := by
  unfold gufaPhase1
  rw [if_neg hA]

theorem gufa_lookup_isSome_iff (env : GUFAEnv) (organization_id : Nat)
    (authors : List Author) (user : Nat) (k : String) :
    (dlookup (get_users_for_authors env organization_id authors user) k).isSome
      ↔ ∃ a ∈ authors, toString a.id = k := by
  by_cases hE : (gufaPhase1 env organization_id authors).2.isEmpty
  · have hres : get_users_for_authors env organization_id authors user
        = (gufaPhase1 env organization_id authors).1 := by
      simp [get_users_for_authors, get_users_for_authors_traced, hE]
    rw [hres]
    by_cases hA : authors.any
        (fun a => (gufaCacheHit env organization_id a).isSome) = true
    · rw [gufaPhase1_lookup_pos env organization_id authors hA k]
      rw [lastWriteOptFrom_isSome]
      simp only [Option.isSome_none, Bool.false_eq_true, false_or]
      constructor
      · rintro ⟨a, ha, hk, _⟩
        exact ⟨a, ha, hk⟩
      · rintro ⟨a, ha, hk⟩
        refine ⟨a, ha, hk, ?_⟩
        have hm := gufaPhase1_missed_pos env organization_id authors hA
        rw [hm, List.isEmpty_iff] at hE
        cases hcase : gufaCacheHit env organization_id a with
        | none =>
          exfalso
          have hmem : a ∈ authors.filter
              (fun a => (gufaCacheHit env organization_id a).isNone) :=
            List.mem_filter.mpr ⟨ha, by simp [hcase]⟩
          rw [hE] at hmem
          exact absurd hmem (List.not_mem_nil a)
        | some u => simp [hcase]
    · have hm := gufaPhase1_missed_neg env organization_id authors hA
      rw [hm, List.isEmpty_iff] at hE
      subst hE
      rw [gufaPhase1_fst_neg env organization_id [] hA]
      simp [dlookup_nil]
  · have hres : get_users_for_authors env organization_id authors user
        = dsetFoldFrom (fun a => toString a.id) (gufaMissValue env)
            (gufaPhase1 env organization_id authors).1
            (gufaPhase1 env organization_id authors).2 := by
      simp [get_users_for_authors, get_users_for_authors_traced, hE]
    rw [hres, dsetFoldFrom_lookup, lastWriteFrom_isSome]
    by_cases hA : authors.any
        (fun a => (gufaCacheHit env organization_id a).isSome) = true
    · rw [gufaPhase1_lookup_pos env organization_id authors hA k]
      rw [lastWriteOptFrom_isSome]
      rw [gufaPhase1_missed_pos env organization_id authors hA]
      simp only [Option.isSome_none, Bool.false_eq_true, false_or]
      constructor
      · rintro (⟨a, ha, hk, _⟩ | ⟨a, ha, hk⟩)
        · exact ⟨a, ha, hk⟩
        · exact ⟨a, (List.mem_filter.mp ha).1, hk⟩
      · rintro ⟨a, ha, hk⟩
        cases hcase : gufaCacheHit env organization_id a with
        | some u => exact Or.inl ⟨a, ha, hk, by simp [hcase]⟩
        | none =>
          exact Or.inr ⟨a, List.mem_filter.mpr ⟨ha, by simp [hcase]⟩, hk⟩
    · rw [gufaPhase1_fst_neg env organization_id authors hA]
      rw [gufaPhase1_missed_neg env organization_id authors hA]
      simp [dlookup_nil]

theorem gufa_lookup_eq_some (env : GUFAEnv) (organization_id : Nat)
    (authors : List Author) (user : Nat) (k : String) (v : UserVal)
    (h : dlookup (get_users_for_authors env organization_id authors user) k
           = some v) :
    ∃ a ∈ authors, toString a.id = k ∧
      (gufaCacheHit env organization_id a = some v
       ∨ (∃ u, dlookup (users_by_email env) a.email.toLower = some u
            ∧ v = UserVal.user u)
       ∨ (dlookup (users_by_email env) a.email.toLower = none
            ∧ v = UserVal.fallback a.name a.email)) := by
  by_cases hE : (gufaPhase1 env organization_id authors).2.isEmpty
  · have hres : get_users_for_authors env organization_id authors user
        = (gufaPhase1 env organization_id authors).1 := by
      simp [get_users_for_authors, get_users_for_authors_traced, hE]
    rw [hres] at h
    by_cases hA : authors.any
        (fun a => (gufaCacheHit env organization_id a).isSome) = true
    · rw [gufaPhase1_lookup_pos env organization_id authors hA k] at h
      rcases lastWriteOptFrom_eq_some _ _ authors none k v h
        with h₁ | ⟨a, ha, hk, hv⟩
      · exact absurd h₁ (by simp)
      · exact ⟨a, ha, hk, Or.inl hv⟩
    · rw [gufaPhase1_fst_neg env organization_id authors hA, dlookup_nil] at h
      exact absurd h (by simp)
  · have hres : get_users_for_authors env organization_id authors user
        = dsetFoldFrom (fun a => toString a.id) (gufaMissValue env)
            (gufaPhase1 env organization_id authors).1
            (gufaPhase1 env organization_id authors).2 := by
      simp [get_users_for_authors, get_users_for_authors_traced, hE]
    rw [hres, dsetFoldFrom_lookup] at h
    rcases lastWriteFrom_eq_some _ _
        (gufaPhase1 env organization_id authors).2 _ k v h
      with h₁ | ⟨a, ha, hk, hv⟩
    · by_cases hA : authors.any
          (fun a => (gufaCacheHit env organization_id a).isSome) = true
      · rw [gufaPhase1_lookup_pos env organization_id authors hA k] at h₁
        rcases lastWriteOptFrom_eq_some _ _ authors none k v h₁
          with h₂ | ⟨a, ha, hk, hv⟩
        · exact absurd h₂ (by simp)
        · exact ⟨a, ha, hk, Or.inl hv⟩
      · rw [gufaPhase1_fst_neg env organization_id authors hA,
          dlookup_nil] at h₁
        exact absurd h₁ (by simp)
    · have ha2 : a ∈ authors := by
        by_cases hA : authors.any
            (fun a => (gufaCacheHit env organization_id a).isSome) = true
        · rw [gufaPhase1_missed_pos env organization_id authors hA] at ha
          exact (List.mem_filter.mp ha).1
        · rw [gufaPhase1_missed_neg env organization_id authors hA] at ha
          exact ha
      refine ⟨a, ha2, hk, ?_⟩
      rw [← hv]
      cases hu : dlookup (users_by_email env) a.email.toLower with
      | some u => exact Or.inr (Or.inl ⟨u, rfl, by simp [gufaMissValue, hu]⟩)
      | none => exact Or.inr (Or.inr ⟨rfl, by simp [gufaMissValue, hu]⟩)

/-- Claim C5: the key set of `get_users_for_authors` is exactly the
string-rendered author ids, and each value is the cached entry for that
author, the serialized organization user matched case-insensitively by
email, or the `{name, email}` fallback when no user matches. -/
theorem get_users_for_authors_spec (env : GUFAEnv) (organization_id : Nat)
    (authors : List Author) (user : Nat) :
    (∀ k, (dlookup (get_users_for_authors env organization_id authors user)
            k).isSome
        ↔ ∃ a ∈ authors, toString a.id = k)
  ∧ (∀ k v,
      dlookup (get_users_for_authors env organization_id authors user) k
        = some v →
      ∃ a ∈ authors, toString a.id = k ∧
        (gufaCacheHit env organization_id a = some v
         ∨ (∃ u, dlookup (users_by_email env) a.email.toLower = some u
              ∧ v = UserVal.user u)
         ∨ (dlookup (users_by_email env) a.email.toLower = none
              ∧ v = UserVal.fallback a.name a.email))) :=
  ⟨fun k => gufa_lookup_isSome_iff env organization_id authors user k,
   fun k v h => gufa_lookup_eq_some env organization_id authors user k v h⟩

theorem get_users_for_authors_spec_witness :
    ∃ a ∈ [authorW], toString a.id = "7" ∧
      (gufaCacheHit gufaEnvW 1 a
          = some (UserVal.fallback "Jane" "jane@example.com")
       ∨ (∃ u, dlookup (users_by_email gufaEnvW) a.email.toLower = some u
            ∧ UserVal.fallback "Jane" "jane@example.com" = UserVal.user u)
       ∨ (dlookup (users_by_email gufaEnvW) a.email.toLower = none
            ∧ UserVal.fallback "Jane" "jane@example.com"
                = UserVal.fallback a.name a.email)) :=
  (get_users_for_authors_spec gufaEnvW 1 [authorW] 0).2 "7"
    (UserVal.fallback "Jane" "jane@example.com") (by rfl)
